import Mathlib

/-!
Verification of the simple_ssh SSH client library core.

This development shallowly embeds the parts of the library that the
specification talks about: the escape-sequence parsers of
src/pty_mode.rs and src/pty_pwd.rs, the detector broadcast logic, the
session state machine and command submission of src/lib.rs, the SCP
upload protocol, and the post-exit drain loop of the PTY actor.

Bytes are modelled as natural numbers (the Rust code works on u8
values, all of which fit in Nat without overflow concerns since no
byte arithmetic wraps). Strings crossing into the byte world are
encoded with an explicit UTF-8 encoder.
-/

namespace SimpleSsh

/-- Decidable equality for `Except`, needed to evaluate the embedded
fallible operations on concrete inputs. -/
instance instDecEqExcept {ε α : Type} [DecidableEq ε] [DecidableEq α] :
    DecidableEq (Except ε α) := fun a b =>
  match a, b with
  | .error e, .error f =>
    if h : e = f then .isTrue (congrArg Except.error h)
    else .isFalse (fun hc => h (by injection hc))
  | .error _, .ok _ => .isFalse (fun hc => by injection hc)
  | .ok _, .error _ => .isFalse (fun hc => by injection hc)
  | .ok x, .ok y =>
    if h : x = y then .isTrue (congrArg Except.ok h)
    else .isFalse (fun hc => h (by injection hc))

/-- UTF-8 encoding of a single unicode code point, as byte values. -/
def utf8EncodeChar (c : Nat) : List Nat :=
  if c < 0x80 then [c]
  else if c < 0x800 then [0xC0 + c / 64, 0x80 + c % 64]
  else if c < 0x10000 then [0xE0 + c / 4096, 0x80 + (c / 64) % 64, 0x80 + c % 64]
  else [0xF0 + c / 262144, 0x80 + (c / 4096) % 64, 0x80 + (c / 64) % 64, 0x80 + c % 64]

/-- The UTF-8 bytes of a string, mirroring Rust `str::as_bytes`. -/
def utf8Bytes (s : String) : List Nat :=
  (s.data.map (fun c => utf8EncodeChar c.toNat)).flatten

/-- Whether a byte is a UTF-8 continuation byte (10xxxxxx). -/
def isUtf8Cont (b : Nat) : Bool := 0x80 ≤ b && b ≤ 0xBF

/-- UTF-8 validity of a byte sequence, mirroring the acceptance of Rust
`std::str::from_utf8` (RFC 3629: no overlong forms, no surrogates, max
U+10FFFF). -/
def validUtf8 : List Nat → Bool
  | [] => true
  | b :: rest =>
    if b ≤ 0x7F then validUtf8 rest
    else if 0xC2 ≤ b && b ≤ 0xDF then
      match rest with
      | c1 :: r => isUtf8Cont c1 && validUtf8 r
      | [] => false
    else if b = 0xE0 then
      match rest with
      | c1 :: c2 :: r => (0xA0 ≤ c1 && c1 ≤ 0xBF) && isUtf8Cont c2 && validUtf8 r
      | _ => false
    else if (0xE1 ≤ b && b ≤ 0xEC) || b = 0xEE || b = 0xEF then
      match rest with
      | c1 :: c2 :: r => isUtf8Cont c1 && isUtf8Cont c2 && validUtf8 r
      | _ => false
    else if b = 0xED then
      match rest with
      | c1 :: c2 :: r => (0x80 ≤ c1 && c1 ≤ 0x9F) && isUtf8Cont c2 && validUtf8 r
      | _ => false
    else if b = 0xF0 then
      match rest with
      | c1 :: c2 :: c3 :: r =>
        (0x90 ≤ c1 && c1 ≤ 0xBF) && isUtf8Cont c2 && isUtf8Cont c3 && validUtf8 r
      | _ => false
    else if 0xF1 ≤ b && b ≤ 0xF3 then
      match rest with
      | c1 :: c2 :: c3 :: r =>
        isUtf8Cont c1 && isUtf8Cont c2 && isUtf8Cont c3 && validUtf8 r
      | _ => false
    else if b = 0xF4 then
      match rest with
      | c1 :: c2 :: c3 :: r =>
        (0x80 ≤ c1 && c1 ≤ 0x8F) && isUtf8Cont c2 && isUtf8Cont c3 && validUtf8 r
      | _ => false
    else false

/-- `hex_digit` of src/pty_pwd.rs: ASCII hex digit to its value. -/
def hex_digit (b : Nat) : Option Nat :=
  if 48 ≤ b ∧ b ≤ 57 then some (b - 48)
  else if 97 ≤ b ∧ b ≤ 102 then some (b - 97 + 10)
  else if 65 ≤ b ∧ b ≤ 70 then some (b - 65 + 10)
  else none

/-- `decode_hex_pair` of src/pty_pwd.rs: two hex ASCII bytes to one byte. -/
def decode_hex_pair (hi lo : Nat) : Option Nat := do
  let h ← hex_digit hi
  let l ← hex_digit lo
  pure (h * 16 + l)

/-- The index-walking loop of `percent_decode` in src/pty_pwd.rs. A `%`
is decoded only when two further bytes follow it (`i + 2 < bytes.len()`)
and they form a valid hex pair; otherwise the byte passes through. -/
def percentDecodeBytes : List Nat → List Nat
  | [] => []
  | 37 :: h1 :: h2 :: r =>
    match decode_hex_pair h1 h2 with
    | some d => d :: percentDecodeBytes r
    | none => 37 :: percentDecodeBytes (h1 :: h2 :: r)
  | b :: rest => b :: percentDecodeBytes rest

/-- `percent_decode` of src/pty_pwd.rs on the byte level. The Rust code
re-validates the decoded bytes with `String::from_utf8` and falls back
to the raw input on failure. -/
def percent_decode (input : List Nat) : List Nat :=
  let result := percentDecodeBytes input
  if validUtf8 result then result else input

/-! ## OSC parser (src/pty_pwd.rs) -/

/-- States of the OSC escape-sequence parser (`OscParserState`). -/
inductive OscParserState
  | normal
  | escape
  | osc
  | oscEscape
deriving DecidableEq

/-- `OscParser` of src/pty_pwd.rs. -/
structure OscParser where
  buffer : List Nat
  state : OscParserState
  max_buffer_size : Nat
deriving DecidableEq

/-- `OscParser::new`: the buffer size is clamped to a minimum of 64. -/
def OscParser.new (buffer_size : Nat) : OscParser :=
  { buffer := [], state := .normal, max_buffer_size := max buffer_size 64 }

/-- `OscParser::reset`. -/
def OscParser.reset (p : OscParser) : OscParser :=
  { p with state := .normal, buffer := [] }

/-- `OscParser::parse_osc7_url`: strip `file://`, skip the hostname up
to the first slash, percent-decode the remainder, drop empty results. -/
def parse_osc7_url (url : List Nat) : Option (List Nat) :=
  if (utf8Bytes "file://").isPrefixOf url then
    let rest := url.drop 7
    match rest.findIdx? (fun b => b = 47) with
    | none => none
    | some path_start =>
      let path := rest.drop path_start
      let decoded := percent_decode path
      if decoded ≠ [] then some decoded else none
  else none

/-- `OscParser::process_osc_payload`: the payload must be valid UTF-8;
a `7;` payload goes through the OSC 7 URL parse, a `633;P;Cwd=` payload
is percent-decoded directly; empty decoded paths are not emitted. -/
def OscParser.process_osc_payload (p : OscParser) : Option (List Nat) :=
  if validUtf8 p.buffer then
    if (utf8Bytes "7;").isPrefixOf p.buffer then
      parse_osc7_url (p.buffer.drop 2)
    else if (utf8Bytes "633;P;Cwd=").isPrefixOf p.buffer then
      let decoded := percent_decode (p.buffer.drop 10)
      if decoded ≠ [] then some decoded else none
    else none
  else none

/-- One byte of `OscParser::feed`. Returns the successor parser and the
path emitted by this byte, if any. 27 is ESC, 93 is `]`, 7 is BEL,
92 is `\`. -/
def OscParser.feed_byte (p : OscParser) (byte : Nat) : OscParser × Option (List Nat) :=
  match p.state with
  | .normal =>
    if byte = 27 then ({ p with state := .escape }, none) else (p, none)
  | .escape =>
    if byte = 93 then ({ p with state := .osc, buffer := [] }, none)
    else ({ p with state := .normal }, none)
  | .osc =>
    if byte = 7 then (p.reset, p.process_osc_payload)
    else if byte = 27 then ({ p with state := .oscEscape }, none)
    else if p.buffer.length < p.max_buffer_size then
      ({ p with buffer := p.buffer ++ [byte] }, none)
    else (p.reset, none)
  | .oscEscape =>
    if byte = 92 then (p.reset, p.process_osc_payload)
    else if byte = 93 then ({ p with state := .osc, buffer := [] }, none)
    else if byte = 27 then ({ p with state := .escape, buffer := [] }, none)
    else (p.reset, none)

/-- `OscParser::feed`: run the byte automaton over the input,
collecting emitted paths in order. -/
def OscParser.feed : OscParser → List Nat → OscParser × List (List Nat)
  | p, [] => (p, [])
  | p, b :: rest =>
    let s := p.feed_byte b
    let r := s.1.feed rest
    (r.1, s.2.toList ++ r.2)

/-! ## Alternate-screen parser (src/pty_mode.rs) -/

/-- `SequenceEvent` of src/pty_mode.rs. -/
inductive SequenceEvent
  | enterAltMode
  | exitAltMode
deriving DecidableEq

/-- `ParserState` of src/pty_mode.rs. -/
inductive ParserState
  | normal
  | escape
  | csi
  | modeSequence
deriving DecidableEq

/-- `EscapeSequenceParser` of src/pty_mode.rs. -/
structure EscapeSequenceParser where
  buffer : List Nat
  state : ParserState
  max_buffer_size : Nat
deriving DecidableEq

/-- `EscapeSequenceParser::new`: buffer size clamped to a minimum of 8. -/
def EscapeSequenceParser.new (buffer_size : Nat) : EscapeSequenceParser :=
  { buffer := [], state := .normal, max_buffer_size := max buffer_size 8 }

/-- `EscapeSequenceParser::reset`. -/
def EscapeSequenceParser.reset (p : EscapeSequenceParser) : EscapeSequenceParser :=
  { p with state := .normal, buffer := [] }

/-- `EscapeSequenceParser::is_alt_mode_sequence`: the buffer without its
leading `ESC [` must equal `?47h`, `?47l`, `?1049h` or `?1049l`. -/
def EscapeSequenceParser.is_alt_mode_sequence (p : EscapeSequenceParser) : Bool :=
  if p.buffer.length < 4 then false
  else
    let seq := p.buffer.drop 2
    seq = utf8Bytes "?47h" || seq = utf8Bytes "?47l" ||
      seq = utf8Bytes "?1049h" || seq = utf8Bytes "?1049l"

/-- Whether a byte is an ASCII digit, as Rust `u8::is_ascii_digit`. -/
def isAsciiDigit (b : Nat) : Bool := 48 ≤ b && b ≤ 57

/-- One byte of `EscapeSequenceParser::feed`. 27 is ESC, 91 is `[`,
63 is `?`, 59 is `;`, 104 is `h`, 108 is `l`. In the escape and CSI
states the byte is pushed only while there is room; in the mode-sequence
state a full buffer resets the parser before the byte is examined. -/
def EscapeSequenceParser.feed_byte (p : EscapeSequenceParser) (byte : Nat) :
    EscapeSequenceParser × Option SequenceEvent :=
  match p.state with
  | .normal =>
    if byte = 27 then ({ p with state := .escape, buffer := [27] }, none)
    else (p, none)
  | .escape =>
    let buf := if p.buffer.length < p.max_buffer_size then p.buffer ++ [byte] else p.buffer
    if byte = 91 then ({ p with state := .csi, buffer := buf }, none)
    else ({ p with state := .normal, buffer := [] }, none)
  | .csi =>
    let buf := if p.buffer.length < p.max_buffer_size then p.buffer ++ [byte] else p.buffer
    if byte = 63 then ({ p with state := .modeSequence, buffer := buf }, none)
    else if isAsciiDigit byte || byte = 59 then ({ p with buffer := buf }, none)
    else ({ p with state := .normal, buffer := [] }, none)
  | .modeSequence =>
    if p.max_buffer_size ≤ p.buffer.length then (p.reset, none)
    else
      let q := { p with buffer := p.buffer ++ [byte] }
      if byte = 104 then
        (q.reset, if q.is_alt_mode_sequence then some .enterAltMode else none)
      else if byte = 108 then
        (q.reset, if q.is_alt_mode_sequence then some .exitAltMode else none)
      else if isAsciiDigit byte then (q, none)
      else (q.reset, none)

/-- `EscapeSequenceParser::feed`: run the byte automaton over the
input, collecting emitted events in order. -/
def EscapeSequenceParser.feed :
    EscapeSequenceParser → List Nat → EscapeSequenceParser × List SequenceEvent
  | p, [] => (p, [])
  | p, b :: rest =>
    let s := p.feed_byte b
    let r := s.1.feed rest
    (r.1, s.2.toList ++ r.2)

/-- Reachability invariant of the alt-mode parser, relating the parser
to the byte stream `c` consumed so far: the buffer always starts with
`ESC [` past the escape state, never outgrows the clamped size, and —
as long as no push was dropped for lack of room — is a suffix of the
consumed stream. -/
def EscInv (c : List Nat) (p : EscapeSequenceParser) : Prop :=
  8 ≤ p.max_buffer_size ∧
  match p.state with
  | .normal => p.buffer = []
  | .escape => p.buffer = [27] ∧ p.buffer.IsSuffix c
  | .csi =>
    (∃ ds, p.buffer = 27 :: 91 :: ds) ∧ p.buffer.length ≤ p.max_buffer_size ∧
      (p.buffer.length < p.max_buffer_size → p.buffer.IsSuffix c)
  | .modeSequence =>
    (∃ ds, p.buffer = 27 :: 91 :: ds) ∧ p.buffer.length ≤ p.max_buffer_size ∧
      (p.buffer.length < p.max_buffer_size → p.buffer.IsSuffix c)

/-! ## Detectors and watch broadcast (src/pty_mode.rs, src/pty_pwd.rs)

The detectors guard a current value with a mutex and publish changes on
a tokio watch channel. The model below records the sequence of values
handed to `watch::Sender::send` in a `sent` log; timestamps
(`std::time::Instant`) carried next to PWD values are omitted since no
claim depends on them. -/

/-- `PtyMode` of src/pty_mode.rs. -/
inductive PtyMode
  | standard
  | alternate
deriving DecidableEq

/-- `ModeDetection` state: current mode, parser, and the log of values
broadcast so far. -/
structure ModeDetection where
  current_mode : PtyMode
  parser : EscapeSequenceParser
  sent : List PtyMode
  enabled : Bool
deriving DecidableEq

/-- `ModeDetection::new` with a given configuration. -/
def ModeDetection.new (enabled : Bool) (buffer_size : Nat) : ModeDetection :=
  { current_mode := .standard, parser := .new buffer_size, sent := [], enabled := enabled }

/-- `ModeDetection::update_mode`: store and broadcast only when the new
mode differs from the stored one. -/
def ModeDetection.update_mode (d : ModeDetection) (new_mode : PtyMode) : ModeDetection :=
  if d.current_mode ≠ new_mode then
    { d with current_mode := new_mode, sent := d.sent ++ [new_mode] }
  else d

/-- `ModeDetection::feed`: no-op when disabled, otherwise run the
parser and map each event through `update_mode`. -/
def ModeDetection.feed (d : ModeDetection) (data : List Nat) : ModeDetection :=
  if d.enabled then
    let r := d.parser.feed data
    r.2.foldl
      (fun acc ev =>
        match ev with
        | .enterAltMode => acc.update_mode .alternate
        | .exitAltMode => acc.update_mode .standard)
      { d with parser := r.1 }
  else d

/-- `PwdDetection` state: current PWD (as UTF-8 bytes), parser, and the
log of values broadcast so far. -/
structure PwdDetection where
  current_pwd : Option (List Nat)
  parser : OscParser
  sent : List (List Nat)
  enabled : Bool
deriving DecidableEq

/-- `PwdDetection::new` with a given configuration. -/
def PwdDetection.new (enabled : Bool) (buffer_size : Nat) : PwdDetection :=
  { current_pwd := none, parser := .new buffer_size, sent := [], enabled := enabled }

/-- `PwdDetection::update_pwd`: store and broadcast only when the path
actually changes (a first report always counts as a change). -/
def PwdDetection.update_pwd (d : PwdDetection) (new_pwd : List Nat) : PwdDetection :=
  let changed : Bool := match d.current_pwd with
    | some old => old != new_pwd
    | none => true
  if changed then
    { d with current_pwd := some new_pwd, sent := d.sent ++ [new_pwd] }
  else d

/-- `PwdDetection::feed`: no-op when disabled, otherwise run the OSC
parser and map each extracted path through `update_pwd`. -/
def PwdDetection.feed (d : PwdDetection) (data : List Nat) : PwdDetection :=
  if d.enabled then
    let r := d.parser.feed data
    r.2.foldl (fun acc path => acc.update_pwd path) { d with parser := r.1 }
  else d

/-! ## Session state machine (src/lib.rs) -/

/-- Abstract token standing in for a live `russh::client::Handle`; the
claims under verification only depend on its presence or absence. -/
inductive TransportHandle
  | live
deriving DecidableEq

/-- `SessionDataPasswd` of src/lib.rs (inactivity timeout omitted). -/
structure SessionDataPasswd where
  cmdv : List String
  passwd : String
  user : String
  host : String
  port : Nat
  scope : Option String
deriving DecidableEq

/-- `SessionDataPubKey` of src/lib.rs (inactivity timeout omitted). -/
structure SessionDataPubKey where
  cert : Option String
  cmdv : List String
  user : String
  host : String
  port : Nat
  key : String
  scope : Option String
deriving DecidableEq

/-- `SessionDataNoAuth` of src/lib.rs (inactivity timeout omitted). -/
structure SessionDataNoAuth where
  cmdv : List String
  user : String
  host : String
  port : Nat
  scope : Option String
deriving DecidableEq

/-- `SessionInner` of src/lib.rs: three authentication variants, each
carrying its data and an optional live transport handle. -/
inductive SessionInner
  | passwd (data : SessionDataPasswd) (session : Option TransportHandle)
  | pubKey (data : SessionDataPubKey) (session : Option TransportHandle)
  | noAuth (data : SessionDataNoAuth) (session : Option TransportHandle)
deriving DecidableEq

/-- `SessionInner::get_session` (read view of the transport slot). -/
def SessionInner.get_session : SessionInner → Option TransportHandle
  | .passwd _ session => session
  | .pubKey _ session => session
  | .noAuth _ session => session

/-- Modelled from the spec: `shell_escape::escape` (Unix flavour) of
the external shell_escape crate, which is not part of this repository.
A non-empty string made only of shell-safe characters passes through;
anything else is wrapped in single quotes, with embedded `'` and `!`
closed off, backslash-escaped and reopened. -/
def shellEscapeChar (c : Char) : Bool :=
  c.isAlphanum || c = '-' || c = '_' || c = '=' || c = '/' || c = ',' || c = '.' || c = '+'

/-- Modelled from the spec: body of `shell_escape::escape`; see
`shellEscapeChar`. -/
def shellEscape (s : String) : String :=
  if s ≠ "" ∧ s.data.all shellEscapeChar then s
  else
    "'" ++ String.mk (s.data.flatMap
      (fun c => if c = '\'' || c = '!' then ['\'', '\\', c, '\''] else [c])) ++ "'"

/-- `SessionInner::get_command`: the configured default command vector,
each element shell-escaped, joined with single spaces. -/
def SessionInner.get_command (s : SessionInner) : String :=
  let cmd := match s with
    | .passwd data _ => data.cmdv
    | .pubKey data _ => data.cmdv
    | .noAuth data _ => data.cmdv
  String.intercalate " " (cmd.map shellEscape)

/-- The errors relevant to the session-level claims. -/
inductive SshError
  | noOpenSession
deriving DecidableEq

/-- What a session operation asks the transport to do; operations are
modelled up to their submission to the transport layer. -/
inductive SessionAction
  | execCmd (cmd : String) (err out : Bool)
  | scpTransfer (local_path remote_path : String)
  | openPty (cmd : String)
  | disconnect
  | noop
deriving DecidableEq

/-- `SessionInner::exec`: join the explicit argument vector with single
spaces (no escaping), or fall back to the escaped default command; then
submit if a transport handle is present. -/
def SessionInner.exec (s : SessionInner) (command : Option (List String)) (err out : Bool) :
    Except SshError SessionAction :=
  let cmd := match command with
    | some c => String.intercalate " " c
    | none => s.get_command
  match s.get_session with
  | some _ => .ok (.execCmd cmd err out)
  | none => .error .noOpenSession

/-- `SessionInner::cmd`: submit the command string verbatim. -/
def SessionInner.cmd (s : SessionInner) (command : String) (err out : Bool) :
    Except SshError SessionAction :=
  match s.get_session with
  | some _ => .ok (.execCmd command err out)
  | none => .error .noOpenSession

/-- `SessionInner::scp`. -/
def SessionInner.scp (s : SessionInner) (from_path to_path : String) :
    Except SshError SessionAction :=
  match s.get_session with
  | some _ => .ok (.scpTransfer from_path to_path)
  | none => .error .noOpenSession

/-- `SessionInner::close`: a no-op success without a handle, a
disconnect otherwise. -/
def SessionInner.close (s : SessionInner) : Except SshError SessionAction :=
  match s.get_session with
  | some _ => .ok .disconnect
  | none => .ok .noop

/-- `PtyBuilder::open` up to the transport: resolve the command (the
builder's own, or the escaped default), then fail without a handle. -/
def SessionInner.ptyOpen (s : SessionInner) (command : Option String) :
    Except SshError SessionAction :=
  let cmd := command.getD s.get_command
  match s.get_session with
  | some _ => .ok (.openPty cmd)
  | none => .error .noOpenSession

/-- `Session::run` of src/lib.rs: default command, both captures on. -/
def sessionRun (s : SessionInner) : Except SshError SessionAction :=
  s.exec none true true

/-- `Session::exec` of src/lib.rs: explicit argv, both captures off. -/
def sessionExec (s : SessionInner) (command : List String) : Except SshError SessionAction :=
  s.exec (some command) false false

/-- `Session::system` of src/lib.rs: wrap as `["sh","-c",command]`. -/
def sessionSystem (s : SessionInner) (command : String) : Except SshError SessionAction :=
  s.exec (some ["sh", "-c", command]) false false

/-- `Session::cmd` of src/lib.rs. -/
def sessionCmd (s : SessionInner) (command : String) : Except SshError SessionAction :=
  s.cmd command false false

/-! ## SCP upload (src/lib.rs)

The upload is modelled as a function of the local file's bytes, the
remote path, and the stream of channel messages the remote sends back;
it returns the trace of submissions made to the channel on success.
The streaming loop is modelled on its success schedule: file reads
complete without intervening channel messages, so the back-channel is
consumed only at the three acknowledgement points. An `Option` layer
distinguishes a Rust panic (`none`, from indexing `data[0]` on an
empty acknowledgement) from a returned result. -/

/-- The channel messages the SCP code inspects (`russh::ChannelMsg`).
The end of the message list models the channel-closed condition. -/
inductive ChanMsg
  | data (payload : List Nat)
  | extendedData (payload : List Nat) (ext : Nat)
  | exitStatus (code : Nat)
  | otherMsg
deriving DecidableEq

/-- Errors surfaced by the SCP upload path. -/
inductive ScpError
  | channelClosedUnexpectedly
  | remoteError (payload : List Nat)
  | exitedEarly (code : Nat)
  | scpStartFailed (ack : List Nat)
  | scpConfirmationFailed (ack : List Nat)
  | scpPostDataConfirmationFailed (ack : List Nat)
  | invalidFileName
deriving DecidableEq

/-- What the SCP code hands to the channel: the initial exec request,
data writes, and the final EOF. -/
inductive ScpSendEvent
  | execRequest (cmd : String)
  | sendData (payload : List Nat)
  | sendEof
deriving DecidableEq

/-- `wait_for_data` of src/lib.rs: skim the channel until a data
message (returned), a stderr extended-data message, an exit status, or
channel end (each an error); anything else is skipped. -/
def wait_for_data : List ChanMsg → Except ScpError (List Nat) × List ChanMsg
  | [] => (.error .channelClosedUnexpectedly, [])
  | msg :: rest =>
    match msg with
    | .data p => (.ok p, rest)
    | .extendedData p ext =>
      if ext = 1 then (.error (.remoteError p), rest) else wait_for_data rest
    | .exitStatus c => (.error (.exitedEarly c), rest)
    | .otherMsg => wait_for_data rest

/-- Split a list into chunks of `n` elements (the 16 KiB read buffer of
the SCP streaming loop); the final chunk may be shorter. -/
def chunksOf (n : Nat) (l : List Nat) : List (List Nat) :=
  if h : l = [] ∨ n = 0 then []
  else l.take n :: chunksOf n (l.drop n)
termination_by l.length
decreasing_by
  simp only [not_or] at h
  have h1 : 0 < n := Nat.pos_of_ne_zero h.2
  have h2 : l.length ≠ 0 := fun hc => h.1 (List.eq_nil_of_length_eq_zero hc)
  simp [List.length_drop]
  omega

/-- Split a character list at every `/` (ASCII 47), keeping empty
pieces; helper for the Unix `Path` component view. -/
def splitOnSlash : List Char → List (List Char)
  | [] => [[]]
  | c :: rest =>
    let r := splitOnSlash rest
    if c = '/' then [] :: r
    else
      match r with
      | [] => [[c]]
      | piece :: pieces => (c :: piece) :: pieces

/-- `std::path::Path::file_name` on Unix for UTF-8 paths, as used on
the remote path in `scp` of src/lib.rs: the last normal component of
the path, where empty and `.` components are dropped and a trailing
`..` yields nothing. -/
def rustFileName (p : String) : Option String :=
  let comps := (splitOnSlash p.data).filter (fun c => c ≠ [] ∧ c ≠ ['.'])
  match comps.getLast? with
  | none => none
  | some c => if c = ['.', '.'] then none else some (String.mk c)

/-- The metadata line of `SCPStateTxStart::write_metadata`:
`C0644 <size> <name>` followed by a newline, as bytes. -/
def scp_metadata_line (file_size : Nat) (file_name : String) : List Nat :=
  utf8Bytes ("C0644 " ++ toString file_size ++ " " ++ file_name ++ "\n")

/-- `scp` of src/lib.rs, as described in the section comment: the
states Open, TxStart, TxData and EOF run in order; each of the three
acknowledgement reads indexes `data[0]`, which panics (`none`) on an
empty acknowledgement payload. -/
def scpUpload (content : List Nat) (remote_path : String) (msgs : List ChanMsg) :
    Option (Except ScpError (List ScpSendEvent)) :=
  match wait_for_data msgs with
  | (.error e, _) => some (.error e)
  | (.ok ack1, msgs1) =>
    match ack1.head? with
    | none => none
    | some b1 =>
      if b1 ≠ 0 then some (.error (.scpStartFailed ack1))
      else
        match rustFileName remote_path with
        | none => some (.error .invalidFileName)
        | some name =>
          match wait_for_data msgs1 with
          | (.error e, _) => some (.error e)
          | (.ok ack2, msgs2) =>
            match ack2.head? with
            | none => none
            | some b2 =>
              if b2 ≠ 0 then some (.error (.scpConfirmationFailed ack2))
              else
                match wait_for_data msgs2 with
                | (.error e, _) => some (.error e)
                | (.ok ack3, _) =>
                  match ack3.head? with
                  | none => none
                  | some b3 =>
                    if b3 ≠ 0 then some (.error (.scpPostDataConfirmationFailed ack3))
                    else
                      some (.ok
                        (ScpSendEvent.execRequest ("scp -t " ++ remote_path) ::
                          ScpSendEvent.sendData (scp_metadata_line content.length name) ::
                          (chunksOf 16384 content).map ScpSendEvent.sendData ++
                          [ScpSendEvent.sendData [0], ScpSendEvent.sendEof]))

/-- The payloads of the data writes in an SCP submission trace. -/
def dataPayloads (trace : List ScpSendEvent) : List (List Nat) :=
  trace.filterMap (fun ev =>
    match ev with
    | .sendData p => some p
    | _ => none)

/-! ## Post-exit drain (src/lib.rs, `drain_remaining_output`)

The drain loop reruns `tokio::select!` between the next channel message
and a freshly created one-second sleep. The model takes the remaining
channel messages tagged with their arrival times (milliseconds from an
arbitrary origin) and the time at which the current iteration starts;
handling a message is instantaneous, so the next iteration starts at
that message's arrival time. It returns the forwarded data payloads and
the time at which the loop breaks. -/

/-- A channel message as classified by the drain loop: a data message
(forwarded) or anything else, including channel end (breaks the loop). -/
inductive DrainMsg
  | dataMsg (payload : List Nat)
  | otherMsg
deriving DecidableEq

/-- `drain_remaining_output` of src/lib.rs over a timed message trace.
A message arriving strictly before the current iteration's one-second
sleep expires wins the select; the sleep is recreated on every
iteration, so its deadline is measured from the iteration start. -/
def drain_remaining_output : Nat → List (Nat × DrainMsg) → List (List Nat) × Nat
  | t, [] => ([], t + 1000)
  | t, (a, m) :: rest =>
    if a < t + 1000 then
      match m with
      | .dataMsg p =>
        let r := drain_remaining_output a rest
        (p :: r.1, r.2)
      | .otherMsg => ([], a)
    else ([], t + 1000)

/-- Arrival times chained: each message arrives strictly within one
second of the previous message's handling (or of the start time). -/
def arrivalsChained : Nat → List (Nat × DrainMsg) → Prop
  | _, [] => True
  | t, (a, _) :: rest => a < t + 1000 ∧ arrivalsChained a rest

/-- The latest arrival time in a drain trace, at least `t`. -/
def lastArrival (t : Nat) (msgs : List (Nat × DrainMsg)) : Nat :=
  msgs.foldr (fun m acc => max m.1 acc) t

/-! ## Theorems -/

theorem percentDecodeBytes_id (s : List Nat) (h : ∀ b ∈ s, b ≠ 37) :
    percentDecodeBytes s = s := by
  induction s with
  | nil => rfl
  | cons b rest ih =>
    have hb : b ≠ 37 := h b (List.mem_cons_self _ _)
    have hr : ∀ x ∈ rest, x ≠ 37 := fun x hx => h x (List.mem_cons_of_mem _ hx)
    rw [percentDecodeBytes.eq_def]
    split
    · rename_i heq
      exact absurd heq (List.cons_ne_nil _ _)
    · rename_i h1 h2 r heq
      exact absurd (List.cons.injEq .. ▸ heq).1 hb
    · rename_i heq b' rest' heq2
      obtain ⟨hb', hrest⟩ := List.cons.injEq .. ▸ heq2
      subst hb' hrest
      rw [ih hr]

/-- C10: percent_decode is the identity on byte strings without `%`
(37); `%HH` with case-insensitive hex decodes to the byte, while
invalid hex (`a%GG`) and a truncated trailing `%` (`a%`) pass through
unchanged. -/
theorem percent_decode_spec :
    (∀ s : List Nat, (∀ b ∈ s, b ≠ 37) → percent_decode s = s) ∧
    percent_decode (utf8Bytes "a%20b") = utf8Bytes "a b" ∧
    percent_decode (utf8Bytes "a%2Fb") = utf8Bytes "a/b" ∧
    percent_decode (utf8Bytes "a%2fb") = utf8Bytes "a/b" ∧
    percent_decode (utf8Bytes "a%") = utf8Bytes "a%" ∧
    percent_decode (utf8Bytes "a%GG") = utf8Bytes "a%GG" := by
  refine ⟨fun s h => ?_, by decide, by decide, by decide, by decide, by decide⟩
  unfold percent_decode
  rw [percentDecodeBytes_id s h, ite_self]

/-- C10 witness: the universally quantified identity applied to a
concrete percent-free byte string. -/
theorem percent_decode_spec_witness :
    percent_decode (utf8Bytes "/home/user") = utf8Bytes "/home/user" :=
  percent_decode_spec.1 (utf8Bytes "/home/user") (by decide)

/-- C8: both detectors broadcast only on a real transition. An update
whose value equals the stored one leaves the detector untouched (no
broadcast), consecutive equal updates collapse to one, and feeding the
byte sequence reporting the same PWD twice produces exactly one entry
in the broadcast log. -/
theorem broadcast_only_on_transition :
    (∀ (d : PwdDetection) (v : List Nat), d.current_pwd = some v → d.update_pwd v = d) ∧
    (∀ (d : PwdDetection) (v : List Nat),
      (d.update_pwd v).update_pwd v = d.update_pwd v) ∧
    (∀ (d : ModeDetection) (m : PtyMode), d.current_mode = m → d.update_mode m = d) ∧
    (∀ (d : ModeDetection) (m : PtyMode),
      (d.update_mode m).update_mode m = d.update_mode m) ∧
    ((((PwdDetection.new true 2048).feed
        (utf8Bytes "\x1b]7;file://host/home/user\x07")).feed
        (utf8Bytes "\x1b]7;file://host/home/user\x07")).sent =
      [utf8Bytes "/home/user"]) := by
  refine ⟨fun d v hv => ?_, fun d v => ?_, fun d m hm => ?_, fun d m => ?_, by decide⟩
  · simp [PwdDetection.update_pwd, hv]
  · by_cases hv : d.current_pwd = some v
    · simp [PwdDetection.update_pwd, hv]
    · cases hd : d.current_pwd with
      | none => simp [PwdDetection.update_pwd, hd]
      | some old =>
        have hne : old ≠ v := fun he => hv (he ▸ hd)
        simp [PwdDetection.update_pwd, hd, hne]
  · simp [ModeDetection.update_mode, hm]
  · by_cases hm : d.current_mode = m
    · simp [ModeDetection.update_mode, hm]
    · simp [ModeDetection.update_mode, hm]

/-- C8 witness: the no-broadcast-on-equal-update components applied to
concrete detector states. -/
theorem broadcast_only_on_transition_witness :
    (PwdDetection.new true 2048 |>.update_pwd (utf8Bytes "/a")).update_pwd (utf8Bytes "/a") =
      (PwdDetection.new true 2048 |>.update_pwd (utf8Bytes "/a")) ∧
    (ModeDetection.new true 256).update_mode .standard = ModeDetection.new true 256 :=
  ⟨broadcast_only_on_transition.2.1 _ _, broadcast_only_on_transition.2.2.1 _ _ rfl⟩

/-- C9: on a session in any of the three authentication variants whose
transport handle is absent, every non-close operation fails with the
no-open-session error, and close succeeds as a no-op. -/
theorem disconnected_ops_fail (s : SessionInner) (h : s.get_session = none) :
    sessionRun s = .error .noOpenSession ∧
    (∀ argv, sessionExec s argv = .error .noOpenSession) ∧
    (∀ c, sessionSystem s c = .error .noOpenSession) ∧
    (∀ c, sessionCmd s c = .error .noOpenSession) ∧
    (∀ f t, s.scp f t = .error .noOpenSession) ∧
    (∀ c, s.ptyOpen c = .error .noOpenSession) ∧
    s.close = .ok .noop := by
  refine ⟨?_, fun argv => ?_, fun c => ?_, fun c => ?_, fun f t => ?_, fun c => ?_, ?_⟩
  all_goals
    simp [sessionRun, sessionExec, sessionSystem, sessionCmd, SessionInner.exec,
      SessionInner.cmd, SessionInner.scp, SessionInner.ptyOpen, SessionInner.close, h]

/-- C9 witness: the theorem applied to a concrete disconnected
password-variant session. -/
theorem disconnected_ops_fail_witness :
    sessionRun (.passwd ⟨["bash"], "pw", "root", "localhost", 22, none⟩ none) =
      .error .noOpenSession ∧
    (∀ argv, sessionExec (.passwd ⟨["bash"], "pw", "root", "localhost", 22, none⟩ none) argv =
      .error .noOpenSession) ∧
    (∀ c, sessionSystem (.passwd ⟨["bash"], "pw", "root", "localhost", 22, none⟩ none) c =
      .error .noOpenSession) ∧
    (∀ c, sessionCmd (.passwd ⟨["bash"], "pw", "root", "localhost", 22, none⟩ none) c =
      .error .noOpenSession) ∧
    (∀ f t, SessionInner.scp (.passwd ⟨["bash"], "pw", "root", "localhost", 22, none⟩ none) f t =
      .error .noOpenSession) ∧
    (∀ c, SessionInner.ptyOpen (.passwd ⟨["bash"], "pw", "root", "localhost", 22, none⟩ none) c =
      .error .noOpenSession) ∧
    SessionInner.close (.passwd ⟨["bash"], "pw", "root", "localhost", 22, none⟩ none) =
      .ok .noop :=
  disconnected_ops_fail _ rfl

/-- C1: contrary to the claim, an explicit argument vector is joined
with single spaces WITHOUT shell-escaping (`SessionInner::exec` calls
`c.join(" ")`; only the default command of `get_command` is escaped).
On a connected session, exec of `["echo","hello world","$x"]` submits
`echo hello world $x`, not the claimed `echo 'hello world' '$x'`, and
system of `ls | wc` submits `sh -c ls | wc`, not `sh -c 'ls | wc'`. -/
theorem exec_submits_unescaped_join :
    sessionExec (.passwd ⟨["bash"], "pw", "root", "localhost", 22, none⟩ (some .live))
        ["echo", "hello world", "$x"] =
      .ok (.execCmd "echo hello world $x" false false) ∧
    sessionSystem (.passwd ⟨["bash"], "pw", "root", "localhost", 22, none⟩ (some .live))
        "ls | wc" =
      .ok (.execCmd "sh -c ls | wc" false false) ∧
    "echo hello world $x" ≠ "echo 'hello world' '$x'" ∧
    "sh -c ls | wc" ≠ "sh -c 'ls | wc'" := by
  refine ⟨by decide, by decide, by decide, by decide⟩

/-- C3 counterexample: the drain phase is NOT bounded by one second
from its start. With data messages arriving 900 ms apart, the drain
forwards a message that arrives 1800 ms after the drain began and only
ends at 2800 ms, because the one-second sleep is recreated on every
loop iteration. -/
theorem drain_exceeds_one_second :
    (drain_remaining_output 0 [(900, .dataMsg [1]), (1800, .dataMsg [2])]).1 = [[1], [2]] ∧
    (drain_remaining_output 0 [(900, .dataMsg [1]), (1800, .dataMsg [2])]).2 = 2800 ∧
    ¬ ((drain_remaining_output 0 [(900, .dataMsg [1]), (1800, .dataMsg [2])]).2 ≤ 0 + 1000) := by
  refine ⟨by decide, by decide, by decide⟩

theorem lastArrival_init_le (t : Nat) (msgs : List (Nat × DrainMsg)) :
    t ≤ lastArrival t msgs := by
  induction msgs with
  | nil => simp [lastArrival]
  | cons m rest ih => simp only [lastArrival, List.foldr_cons] at ih ⊢; omega

theorem lastArrival_le_max (a t : Nat) (msgs : List (Nat × DrainMsg)) :
    lastArrival a msgs ≤ max a (lastArrival t msgs) := by
  induction msgs with
  | nil => simp [lastArrival]
  | cons m rest ih => simp only [lastArrival, List.foldr_cons] at ih ⊢; omega

/-- C3 amended: the one-second timeout is an idle timeout that restarts
with every loop iteration, not a hard bound from the drain's start.
The drain (i) ends at most one second after the later of the drain
start and the last message arrival, (ii) ends exactly one second after
its start with nothing forwarded when no message arrives within that
first second, and (iii) forwards every data message in a run whose
arrivals each fall within one second of handling the previous one,
however long that run is. -/
theorem drain_idle_timeout_spec :
    (∀ (t : Nat) (msgs : List (Nat × DrainMsg)),
      (drain_remaining_output t msgs).2 ≤ lastArrival t msgs + 1000) ∧
    (∀ (t a : Nat) (m : DrainMsg) (rest : List (Nat × DrainMsg)),
      t + 1000 ≤ a → drain_remaining_output t ((a, m) :: rest) = ([], t + 1000)) ∧
    (∀ (t : Nat) (msgs : List (Nat × DrainMsg)),
      arrivalsChained t msgs → (∀ m ∈ msgs, ∃ p, m.2 = DrainMsg.dataMsg p) →
      (drain_remaining_output t msgs).1 =
        msgs.filterMap (fun m =>
          match m.2 with
          | .dataMsg p => some p
          | .otherMsg => none)) := by
  refine ⟨fun t msgs => ?_, fun t a m rest ha => ?_, fun t msgs hc hd => ?_⟩
  · induction msgs generalizing t with
    | nil => simp [drain_remaining_output, lastArrival]
    | cons m rest ih =>
      obtain ⟨a, m⟩ := m
      have hfold : lastArrival t ((a, m) :: rest) = max a (lastArrival t rest) := by
        simp [lastArrival]
      rw [drain_remaining_output.eq_def]
      simp only
      rw [hfold]
      split
      · cases m with
        | dataMsg p =>
          have h1 := ih a
          have h2 := lastArrival_le_max a t rest
          simp only
          omega
        | otherMsg =>
          have := lastArrival_init_le t rest
          simp only
          omega
      · have := lastArrival_init_le t rest
        omega
  · rw [drain_remaining_output.eq_def]
    simp only
    rw [if_neg (by omega)]
  · induction msgs generalizing t with
    | nil => simp [drain_remaining_output]
    | cons m rest ih =>
      obtain ⟨a, m⟩ := m
      obtain ⟨ha, hcr⟩ := hc
      obtain ⟨p, hp⟩ := hd (a, m) (List.mem_cons_self _ _)
      simp only at hp
      subst hp
      rw [drain_remaining_output.eq_def]
      simp only
      rw [if_pos ha]
      simp only [List.filterMap_cons]
      rw [ih a hcr (fun x hx => hd x (List.mem_cons_of_mem _ hx))]

/-- C3 amended witness: the bound, the quiet-drain case and the
chained-forwarding case at concrete inputs. -/
theorem drain_idle_timeout_spec_witness :
    (drain_remaining_output 0 [(900, .dataMsg [1]), (1800, .dataMsg [2])]).2 ≤
      lastArrival 0 [(900, .dataMsg [1]), (1800, .dataMsg [2])] + 1000 ∧
    drain_remaining_output 5 [(1005, .dataMsg [9])] = ([], 1005) ∧
    (drain_remaining_output 0 [(900, .dataMsg [1]), (1800, .dataMsg [2])]).1 = [[1], [2]] := by
  refine ⟨drain_idle_timeout_spec.1 0 _, drain_idle_timeout_spec.2.1 5 1005 _ _ (by decide), ?_⟩
  rw [drain_idle_timeout_spec.2.2 0 _ (by simp [arrivalsChained]) ?_]
  · decide
  · intro m hm
    fin_cases hm <;> exact ⟨_, rfl⟩

theorem osc_feed_append (p : OscParser) (s1 s2 : List Nat) :
    p.feed (s1 ++ s2) =
      (((p.feed s1).1.feed s2).1, (p.feed s1).2 ++ ((p.feed s1).1.feed s2).2) := by
  induction s1 generalizing p with
  | nil => simp [OscParser.feed]
  | cons b rest ih =>
    simp only [List.cons_append, OscParser.feed, List.append_eq]
    rw [ih]
    simp [List.append_assoc]

theorem esc_feed_append (p : EscapeSequenceParser) (s1 s2 : List Nat) :
    p.feed (s1 ++ s2) =
      (((p.feed s1).1.feed s2).1, (p.feed s1).2 ++ ((p.feed s1).1.feed s2).2) := by
  induction s1 generalizing p with
  | nil => simp [EscapeSequenceParser.feed]
  | cons b rest ih =>
    simp only [List.cons_append, EscapeSequenceParser.feed, List.append_eq]
    rw [ih]
    simp [List.append_assoc]

theorem OscParser.feed_normal_ignored (s : List Nat) (p : OscParser)
    (hstate : p.state = .normal) (h : ∀ b ∈ s, b ≠ 27) : p.feed s = (p, []) := by
  induction s with
  | nil => rfl
  | cons b rest ih =>
    have hb : b ≠ 27 := h b (List.mem_cons_self _ _)
    simp only [feed, feed_byte, hstate, hb, if_false]
    rw [ih (fun x hx => h x (List.mem_cons_of_mem _ hx))]
    rfl

theorem OscParser.feed_osc_overflow (s : List Nat) (p : OscParser)
    (hstate : p.state = .osc)
    (hbytes : ∀ b ∈ s, b ≠ 27 ∧ b ≠ 7)
    (hlen : p.buffer.length ≤ p.max_buffer_size)
    (hover : p.max_buffer_size < p.buffer.length + s.length) :
    p.feed s = ({ p with state := .normal, buffer := [] }, []) := by
  induction s generalizing p with
  | nil => simp at hover; omega
  | cons b rest ih =>
    obtain ⟨hb27, hb7⟩ := hbytes b (List.mem_cons_self _ _)
    by_cases hroom : p.buffer.length < p.max_buffer_size
    · have hfb : p.feed_byte b = ({ p with buffer := p.buffer ++ [b] }, none) := by
        simp [feed_byte, hstate, hb7, hb27, hroom]
      simp only [feed, hfb]
      rw [ih { p with buffer := p.buffer ++ [b] } hstate
        (fun x hx => hbytes x (List.mem_cons_of_mem _ hx))
        (by simp; omega) (by simp at hover ⊢; omega)]
      rfl
    · have hfb : p.feed_byte b = (p.reset, none) := by
        simp [feed_byte, hstate, hb7, hb27, hroom]
      simp only [feed, hfb]
      rw [OscParser.feed_normal_ignored rest p.reset rfl
        (fun x hx => (hbytes x (List.mem_cons_of_mem _ hx)).1)]
      rfl

theorem OscParser.overlong_payload_dropped (n : Nat) (payload : List Nat)
    (hbytes : ∀ b ∈ payload, b ≠ 27 ∧ b ≠ 7)
    (hlen : max n 64 < payload.length) :
    (OscParser.new n).feed ([27, 93] ++ payload ++ [7]) = (OscParser.new n, []) := by
  have h2 : (OscParser.new n).feed [27, 93] =
      ({ OscParser.new n with state := .osc, buffer := [] }, []) := by
    simp [feed, feed_byte, OscParser.new]
  rw [show ([27, 93] ++ payload ++ [7] : List Nat) = [27, 93] ++ (payload ++ [7]) by simp,
    osc_feed_append, h2]
  rw [osc_feed_append]
  rw [OscParser.feed_osc_overflow payload _ rfl hbytes (by simp [OscParser.new])
    (by simpa [OscParser.new] using hlen)]
  have h7 : ({ OscParser.new n with state := .normal, buffer := [] } : OscParser).feed [7] =
      ({ OscParser.new n with state := .normal, buffer := [] }, []) := by
    simp [feed, feed_byte]
  rw [h7]
  rfl

/-- C5 counterexample: the OSC drop bound is NOT the configured buffer
size. `OscParser::new` clamps the size to a minimum of 64, so with a
configured size of 1 a 12-byte payload (longer than the configured
size) is still emitted, not dropped. -/
theorem osc_overlong_not_dropped_at_configured_size :
    (utf8Bytes "7;file://h/x").length = 12 ∧ 1 < 12 ∧
    ((OscParser.new 1).feed (utf8Bytes "\x1b]7;file://h/x\x07")).2 = [utf8Bytes "/x"] := by
  refine ⟨by decide, by decide, by decide⟩

/-- C5 amended: both parsers are byte-stream resumable — feeding s1
then s2 to a fresh parser emits the same event sequence as feeding
s1 ++ s2 in one call — and any single OSC payload longer than the
EFFECTIVE buffer size max(n, 64) (the constructor clamps the configured
n to a minimum of 64) is silently dropped, leaving the parser in its
initial state so that subsequent parsing is unaffected. -/
theorem parser_feed_resumable (n : Nat) (s1 s2 : List Nat)
    (payload s : List Nat) (hbytes : ∀ b ∈ payload, b ≠ 27 ∧ b ≠ 7)
    (hlen : max n 64 < payload.length) :
    ((EscapeSequenceParser.new n).feed (s1 ++ s2)).2 =
      ((EscapeSequenceParser.new n).feed s1).2 ++
        (((EscapeSequenceParser.new n).feed s1).1.feed s2).2 ∧
    ((OscParser.new n).feed (s1 ++ s2)).2 =
      ((OscParser.new n).feed s1).2 ++ (((OscParser.new n).feed s1).1.feed s2).2 ∧
    (OscParser.new n).feed (([27, 93] ++ payload ++ [7]) ++ s) = (OscParser.new n).feed s := by
  refine ⟨?_, ?_, ?_⟩
  · rw [esc_feed_append]
  · rw [osc_feed_append]
  · rw [osc_feed_append, OscParser.overlong_payload_dropped n payload hbytes hlen]
    simp

/-- C5 amended witness: resumability on a split alt-mode sequence and
the drop of a concrete 70-byte payload. -/
theorem parser_feed_resumable_witness :
    (∀ b ∈ List.replicate 70 97, b ≠ 27 ∧ b ≠ 7) ∧
    ((EscapeSequenceParser.new 1).feed (utf8Bytes "\x1b[?" ++ utf8Bytes "1049h")).2 =
      ((EscapeSequenceParser.new 1).feed (utf8Bytes "\x1b[?")).2 ++
        (((EscapeSequenceParser.new 1).feed (utf8Bytes "\x1b[?")).1.feed
          (utf8Bytes "1049h")).2 ∧
    (OscParser.new 1).feed (([27, 93] ++ List.replicate 70 97 ++ [7]) ++ utf8Bytes "x") =
      (OscParser.new 1).feed (utf8Bytes "x") :=
  have h := parser_feed_resumable 1 (utf8Bytes "\x1b[?") (utf8Bytes "1049h")
    (List.replicate 70 97) (utf8Bytes "x") (by decide) (by decide)
  ⟨by decide, h.1, h.2.2⟩

theorem esc_feed_byte_size_bound (p : EscapeSequenceParser) (b : Nat)
    (h1 : 1 ≤ p.max_buffer_size) (h : p.buffer.length ≤ p.max_buffer_size) :
    ((p.feed_byte b).1).max_buffer_size = p.max_buffer_size ∧
    ((p.feed_byte b).1).buffer.length ≤ p.max_buffer_size := by
  obtain ⟨buf, st, m⟩ := p
  simp only at h1 h
  cases st <;>
    simp only [EscapeSequenceParser.feed_byte, EscapeSequenceParser.reset] <;>
    split_ifs <;>
    simp_all <;>
    omega

theorem esc_feed_size_bound (s : List Nat) (p : EscapeSequenceParser)
    (h1 : 1 ≤ p.max_buffer_size) (h : p.buffer.length ≤ p.max_buffer_size) :
    ((p.feed s).1).max_buffer_size = p.max_buffer_size ∧
    ((p.feed s).1).buffer.length ≤ p.max_buffer_size := by
  induction s generalizing p with
  | nil => exact ⟨rfl, h⟩
  | cons b rest ih =>
    obtain ⟨hm, hl⟩ := esc_feed_byte_size_bound p b h1 h
    have := ih (p.feed_byte b).1 (hm ▸ h1) (hm ▸ hl)
    simp only [EscapeSequenceParser.feed]
    exact ⟨by rw [this.1, hm], hm ▸ this.2⟩

theorem osc_feed_byte_size_bound (p : OscParser) (b : Nat)
    (h : p.buffer.length ≤ p.max_buffer_size) :
    ((p.feed_byte b).1).max_buffer_size = p.max_buffer_size ∧
    ((p.feed_byte b).1).buffer.length ≤ p.max_buffer_size := by
  obtain ⟨buf, st, m⟩ := p
  simp only at h
  cases st <;>
    simp only [OscParser.feed_byte, OscParser.reset] <;>
    split_ifs <;>
    simp_all <;>
    omega

theorem osc_feed_size_bound (s : List Nat) (p : OscParser)
    (h : p.buffer.length ≤ p.max_buffer_size) :
    ((p.feed s).1).max_buffer_size = p.max_buffer_size ∧
    ((p.feed s).1).buffer.length ≤ p.max_buffer_size := by
  induction s generalizing p with
  | nil => exact ⟨rfl, h⟩
  | cons b rest ih =>
    obtain ⟨hm, hl⟩ := osc_feed_byte_size_bound p b h
    have := ih (p.feed_byte b).1 (hm ▸ hl)
    simp only [OscParser.feed]
    exact ⟨by rw [this.1, hm], hm ▸ this.2⟩

/-- C6 counterexample: the buffer bound is NOT the configured size.
`EscapeSequenceParser::new` clamps the size to a minimum of 8, so a
parser configured with buffer size 1 grows its buffer to 8 bytes. -/
theorem alt_buffer_exceeds_configured_size :
    ((EscapeSequenceParser.new 1).feed [27, 91, 63, 49, 50, 51, 52, 53]).1.buffer.length = 8 ∧
    ¬ (((EscapeSequenceParser.new 1).feed [27, 91, 63, 49, 50, 51, 52, 53]).1.buffer.length
        ≤ 1) := by
  refine ⟨by decide, by decide⟩

/-- C6 amended: for a parser constructed with configured buffer size
n, the internal buffer never exceeds the EFFECTIVE size — max(n, 8)
for the alt-mode parser and max(n, 64) for the OSC parser, since the
constructors clamp the configuration — over any sequence of feeds; and
on buffer overflow each parser resets without emitting an event. -/
theorem parser_buffer_bounded (n : Nat) (s : List Nat)
    (p : EscapeSequenceParser) (q : OscParser) (b c : Nat)
    (hp : p.state = .modeSequence) (hpl : p.max_buffer_size ≤ p.buffer.length)
    (hq : q.state = .osc) (hc7 : c ≠ 7) (hc27 : c ≠ 27)
    (hql : q.max_buffer_size ≤ q.buffer.length) :
    ((EscapeSequenceParser.new n).feed s).1.buffer.length ≤ max n 8 ∧
    ((OscParser.new n).feed s).1.buffer.length ≤ max n 64 ∧
    p.feed_byte b = (p.reset, none) ∧
    q.feed_byte c = (q.reset, none) := by
  refine ⟨?_, ?_, ?_, ?_⟩
  · exact (esc_feed_size_bound s (.new n)
      (by simp [EscapeSequenceParser.new]) (by simp [EscapeSequenceParser.new])).2
  · exact (osc_feed_size_bound s (.new n) (by simp [OscParser.new])).2
  · obtain ⟨buf, st, m⟩ := p
    simp only at hp hpl
    subst hp
    simp [EscapeSequenceParser.feed_byte, EscapeSequenceParser.reset, hpl, Nat.not_lt.mpr]
  · obtain ⟨buf, st, m⟩ := q
    simp only at hq hql
    subst hq
    simp [OscParser.feed_byte, OscParser.reset, hc7, hc27, Nat.not_lt.mpr hql]

/-- C6 amended witness: the bounds on concrete feeds and the
overflow resets on concrete full parsers. -/
theorem parser_buffer_bounded_witness :
    ((EscapeSequenceParser.new 1).feed [27, 91, 63, 49, 50, 51, 52, 53]).1.buffer.length
      ≤ max 1 8 ∧
    ((OscParser.new 1).feed [27, 93, 55, 59]).1.buffer.length ≤ max 1 64 ∧
    EscapeSequenceParser.feed_byte ⟨[27, 91, 63, 49, 50, 51, 52, 53], .modeSequence, 8⟩ 52 =
      (EscapeSequenceParser.reset ⟨[27, 91, 63, 49, 50, 51, 52, 53], .modeSequence, 8⟩,
        none) ∧
    OscParser.feed_byte ⟨List.replicate 64 97, .osc, 64⟩ 98 =
      (OscParser.reset ⟨List.replicate 64 97, .osc, 64⟩, none) :=
  have h := parser_buffer_bounded 1 [27, 91, 63, 49, 50, 51, 52, 53]
    ⟨[27, 91, 63, 49, 50, 51, 52, 53], .modeSequence, 8⟩
    ⟨List.replicate 64 97, .osc, 64⟩ 52 98 rfl (by decide) rfl (by decide) (by decide)
    (by decide)
  ⟨h.1, (parser_buffer_bounded 1 [27, 93, 55, 59]
    ⟨[27, 91, 63, 49, 50, 51, 52, 53], .modeSequence, 8⟩
    ⟨List.replicate 64 97, .osc, 64⟩ 52 98 rfl (by decide) rfl (by decide) (by decide)
    (by decide)).2.1, h.2.2.1, h.2.2.2⟩

theorem chunksOf_flatten (n : Nat) (hn : n ≠ 0) (l : List Nat) :
    (chunksOf n l).flatten = l := by
  generalize hk : l.length = k
  induction k using Nat.strong_induction_on generalizing l with
  | _ k ih =>
    rw [chunksOf]
    split
    · rename_i hc
      rcases hc with h | h
      · simp [h]
      · exact absurd h hn
    · rename_i hc
      simp only [not_or] at hc
      simp only [List.flatten_cons]
      rw [ih (l.drop n).length ?_ (l.drop n) rfl]
      · exact List.take_append_drop n l
      · have hl : l.length ≠ 0 := fun h0 => hc.1 (List.eq_nil_of_length_eq_zero h0)
        subst hk
        simp only [List.length_drop]
        omega

theorem wait_for_data_nonempty (msgs : List ChanMsg)
    (h : ∀ q, ChanMsg.data q ∈ msgs → q ≠ []) :
    ∀ {p : List Nat} {rest : List ChanMsg}, wait_for_data msgs = (.ok p, rest) →
      p ≠ [] ∧ ∀ q, ChanMsg.data q ∈ rest → q ≠ [] := by
  induction msgs with
  | nil => intro p rest hw; simp [wait_for_data] at hw
  | cons msg tail ih =>
    intro p rest hw
    have htail : ∀ q, ChanMsg.data q ∈ tail → q ≠ [] :=
      fun q hq => h q (List.mem_cons_of_mem _ hq)
    cases msg with
    | data q =>
      simp only [wait_for_data, Prod.mk.injEq] at hw
      obtain ⟨hq, hrest⟩ := hw
      injection hq with hq
      subst hq hrest
      exact ⟨h _ (List.mem_cons_self _ _), htail⟩
    | extendedData q ext =>
      by_cases he : ext = 1
      · subst he
        simp [wait_for_data] at hw
      · simp only [wait_for_data, if_neg he] at hw
        exact ih htail hw
    | exitStatus c => simp [wait_for_data] at hw
    | otherMsg =>
      simp only [wait_for_data] at hw
      exact ih htail hw

/-- C2: on the success schedule, the SCP upload submits exactly the
exec request `scp -t <remote path>`, then on the data stream the
metadata line `C0644 <size> <basename>` + newline — with the basename
taken from the remote path — then the file's contents in 16 KiB
chunks, then one zero byte, and finally channel EOF; the data payloads
concatenate to metadata ++ contents ++ 0. -/
theorem scp_upload_data_stream (content : List Nat) (path name : String)
    (h : rustFileName path = some name) :
    scpUpload content path [.data [0], .data [0], .data [0]] =
      some (.ok (ScpSendEvent.execRequest ("scp -t " ++ path) ::
        ScpSendEvent.sendData (scp_metadata_line content.length name) ::
        ((chunksOf 16384 content).map ScpSendEvent.sendData ++
          [ScpSendEvent.sendData [0], ScpSendEvent.sendEof]))) ∧
    dataPayloads (ScpSendEvent.execRequest ("scp -t " ++ path) ::
        ScpSendEvent.sendData (scp_metadata_line content.length name) ::
        ((chunksOf 16384 content).map ScpSendEvent.sendData ++
          [ScpSendEvent.sendData [0], ScpSendEvent.sendEof])) =
      scp_metadata_line content.length name :: ((chunksOf 16384 content) ++ [[0]]) ∧
    (dataPayloads (ScpSendEvent.execRequest ("scp -t " ++ path) ::
        ScpSendEvent.sendData (scp_metadata_line content.length name) ::
        ((chunksOf 16384 content).map ScpSendEvent.sendData ++
          [ScpSendEvent.sendData [0], ScpSendEvent.sendEof]))).flatten =
      scp_metadata_line content.length name ++ content ++ [0] ∧
    (ScpSendEvent.execRequest ("scp -t " ++ path) ::
        ScpSendEvent.sendData (scp_metadata_line content.length name) ::
        ((chunksOf 16384 content).map ScpSendEvent.sendData ++
          [ScpSendEvent.sendData [0], ScpSendEvent.sendEof])).getLast? =
      some ScpSendEvent.sendEof := by
  have hpay : dataPayloads (ScpSendEvent.execRequest ("scp -t " ++ path) ::
      ScpSendEvent.sendData (scp_metadata_line content.length name) ::
      ((chunksOf 16384 content).map ScpSendEvent.sendData ++
        [ScpSendEvent.sendData [0], ScpSendEvent.sendEof])) =
      scp_metadata_line content.length name :: ((chunksOf 16384 content) ++ [[0]]) := by
    simp only [dataPayloads, List.filterMap_cons, List.filterMap_append,
      List.filterMap_map, Function.comp_def]
    rw [show (fun x : List Nat =>
        match ScpSendEvent.sendData x with
        | ScpSendEvent.sendData p => some p
        | _ => none) = some from rfl]
    rw [List.filterMap_some]
    simp
  refine ⟨?_, hpay, ?_, ?_⟩
  · simp only [scpUpload, wait_for_data, List.head?, h]
    rfl
  · rw [hpay]
    simp [chunksOf_flatten 16384 (by decide) content]
  · rw [show (ScpSendEvent.execRequest ("scp -t " ++ path) ::
        ScpSendEvent.sendData (scp_metadata_line content.length name) ::
        ((chunksOf 16384 content).map ScpSendEvent.sendData ++
          [ScpSendEvent.sendData [0], ScpSendEvent.sendEof])) =
        (ScpSendEvent.execRequest ("scp -t " ++ path) ::
          ScpSendEvent.sendData (scp_metadata_line content.length name) ::
          ((chunksOf 16384 content).map ScpSendEvent.sendData ++
            [ScpSendEvent.sendData [0]])) ++ [ScpSendEvent.sendEof] by simp]
    exact List.getLast?_concat _

/-- C2 witness: uploading the five bytes of `hello` to /tmp/x.txt
submits the metadata line `C0644 5 x.txt` + newline followed by the
contents, the zero byte and EOF. -/
theorem scp_upload_data_stream_witness :
    rustFileName "/tmp/x.txt" = some "x.txt" ∧
    scp_metadata_line (utf8Bytes "hello").length "x.txt" = utf8Bytes "C0644 5 x.txt\n" ∧
    scpUpload (utf8Bytes "hello") "/tmp/x.txt" [.data [0], .data [0], .data [0]] =
      some (.ok (ScpSendEvent.execRequest "scp -t /tmp/x.txt" ::
        ScpSendEvent.sendData (scp_metadata_line (utf8Bytes "hello").length "x.txt") ::
        ((chunksOf 16384 (utf8Bytes "hello")).map ScpSendEvent.sendData ++
          [ScpSendEvent.sendData [0], ScpSendEvent.sendEof]))) :=
  ⟨by decide, by decide,
    (scp_upload_data_stream (utf8Bytes "hello") "/tmp/x.txt" "x.txt" (by decide)).1⟩

/-- C4: each of the three acknowledgement points indexes the first byte
of the received data message without an emptiness check. An empty
acknowledgement data message at any of the three points makes the
upload panic (modelled as `none`) instead of returning an error, and
the upload is panic-free exactly under the precondition that every
data message the remote returns is non-empty. -/
theorem scp_ack_indexing_unchecked (content : List Nat) (path : String) (name : String)
    (hname : rustFileName path = some name) (tail : List ChanMsg)
    (msgs : List ChanMsg) (hne : ∀ q, ChanMsg.data q ∈ msgs → q ≠ []) :
    scpUpload content path (.data [] :: tail) = none ∧
    scpUpload content path (.data [0] :: .data [] :: tail) = none ∧
    scpUpload content path (.data [0] :: .data [0] :: .data [] :: tail) = none ∧
    scpUpload content path msgs ≠ none := by
  refine ⟨?_, ?_, ?_, ?_⟩
  · simp [scpUpload, wait_for_data]
  · simp [scpUpload, wait_for_data, hname]
  · simp [scpUpload, wait_for_data, hname]
  · unfold scpUpload
    rcases hw1 : wait_for_data msgs with ⟨res1, msgs1⟩
    cases res1 with
    | error e => simp
    | ok ack1 =>
      obtain ⟨hne1, hmem1⟩ := wait_for_data_nonempty msgs hne hw1
      obtain ⟨b1, ack1t, rfl⟩ := List.exists_cons_of_ne_nil hne1
      simp only [List.head?]
      by_cases hb1 : b1 ≠ 0
      · simp [hb1]
      · rw [if_neg hb1, hname]
        rcases hw2 : wait_for_data msgs1 with ⟨res2, msgs2⟩
        cases res2 with
        | error e => simp
        | ok ack2 =>
          obtain ⟨hne2, hmem2⟩ := wait_for_data_nonempty msgs1 hmem1 hw2
          obtain ⟨b2, ack2t, rfl⟩ := List.exists_cons_of_ne_nil hne2
          simp only [List.head?]
          by_cases hb2 : b2 ≠ 0
          · simp [hb2]
          · rw [if_neg hb2]
            rcases hw3 : wait_for_data msgs2 with ⟨res3, msgs3⟩
            cases res3 with
            | error e => simp
            | ok ack3 =>
              obtain ⟨hne3, _⟩ := wait_for_data_nonempty msgs2 hmem2 hw3
              obtain ⟨b3, ack3t, rfl⟩ := List.exists_cons_of_ne_nil hne3
              simp only [List.head?]
              by_cases hb3 : b3 ≠ 0
              · simp [hb3]
              · simp [hb3]

/-- C4 witness: the three panic points at a concrete upload and the
panic-freedom of a concrete all-zero acknowledgement stream. -/
theorem scp_ack_indexing_unchecked_witness :
    scpUpload (utf8Bytes "hi") "/tmp/f" (.data [] :: []) = none ∧
    scpUpload (utf8Bytes "hi") "/tmp/f" (.data [0] :: .data [] :: []) = none ∧
    scpUpload (utf8Bytes "hi") "/tmp/f" (.data [0] :: .data [0] :: .data [] :: []) = none ∧
    scpUpload (utf8Bytes "hi") "/tmp/f" [.data [0], .data [0], .data [0]] ≠ none :=
  scp_ack_indexing_unchecked (utf8Bytes "hi") "/tmp/f" "f" (by decide) []
    [.data [0], .data [0], .data [0]] (by intro q hq; fin_cases hq <;> simp)

theorem esc_feed_byte_inv (p : EscapeSequenceParser) (b : Nat) (c : List Nat)
    (h : EscInv c p) : EscInv (c ++ [b]) ((p.feed_byte b).1) := by
  obtain ⟨buf, st, m⟩ := p
  obtain ⟨hm, hst⟩ := h
  simp only at hm
  cases st
  case normal =>
    simp only at hst
    subst hst
    by_cases hb : b = 27
    · subst hb
      simp only [EscapeSequenceParser.feed_byte, if_pos rfl]
      exact ⟨hm, rfl, ⟨c, rfl⟩⟩
    · simp only [EscapeSequenceParser.feed_byte, if_neg hb]
      exact ⟨hm, rfl⟩
  case escape =>
    obtain ⟨hbuf, hsuf⟩ := hst
    simp only at hbuf
    subst hbuf
    have hroom : ([27] : List Nat).length < m := by simp; omega
    by_cases hb : b = 91
    · subst hb
      simp only [EscapeSequenceParser.feed_byte, if_pos hroom, if_pos rfl]
      refine ⟨hm, ⟨[], rfl⟩, by simp; omega, fun _ => ?_⟩
      obtain ⟨t, rfl⟩ := hsuf
      exact ⟨t, by simp⟩
    · simp only [EscapeSequenceParser.feed_byte, if_neg hb]
      exact ⟨hm, rfl⟩
  case csi =>
    obtain ⟨⟨ds, hbuf⟩, hlen, hsuf⟩ := hst
    simp only at hbuf hlen hsuf
    subst hbuf
    simp only [EscapeSequenceParser.feed_byte]
    by_cases hb : b = 63
    · subst hb
      simp only [if_pos rfl]
      by_cases hroom : (27 :: 91 :: ds).length < m
      · simp only [if_pos hroom]
        refine ⟨hm, ⟨ds ++ [63], by simp⟩, by simp at hroom ⊢; omega, fun _ => ?_⟩
        obtain ⟨t, rfl⟩ := hsuf hroom
        exact ⟨t, by simp⟩
      · simp only [if_neg hroom]
        refine ⟨hm, ⟨ds, rfl⟩, hlen, fun hlt => absurd hlt hroom⟩
    · simp only [if_neg hb]
      by_cases hd : (isAsciiDigit b || b = 59) = true
      · simp only [hd, if_true]
        by_cases hroom : (27 :: 91 :: ds).length < m
        · simp only [if_pos hroom]
          refine ⟨hm, ⟨ds ++ [b], by simp⟩, by simp at hroom ⊢; omega, fun _ => ?_⟩
          obtain ⟨t, rfl⟩ := hsuf hroom
          exact ⟨t, by simp⟩
        · simp only [if_neg hroom]
          refine ⟨hm, ⟨ds, rfl⟩, hlen, fun hlt => absurd hlt hroom⟩
      · simp only [hd, if_false]
        exact ⟨hm, rfl⟩
  case modeSequence =>
    obtain ⟨⟨ds, hbuf⟩, hlen, hsuf⟩ := hst
    simp only at hbuf hlen hsuf
    subst hbuf
    simp only [EscapeSequenceParser.feed_byte]
    by_cases hover : m ≤ (27 :: 91 :: ds).length
    · simp only [if_pos hover, EscapeSequenceParser.reset]
      exact ⟨hm, rfl⟩
    · simp only [if_neg hover]
      have hroom : (27 :: 91 :: ds).length < m := by omega
      have hpush : EscInv (c ++ [b])
          (⟨27 :: 91 :: (ds ++ [b]), .modeSequence, m⟩ : EscapeSequenceParser) := by
        refine ⟨hm, ⟨ds ++ [b], rfl⟩, by simp at hroom ⊢; omega, fun _ => ?_⟩
        obtain ⟨t, rfl⟩ := hsuf hroom
        exact ⟨t, by simp⟩
      by_cases hb104 : b = 104
      · subst hb104
        simp only [if_pos rfl, EscapeSequenceParser.reset]
        exact ⟨hm, rfl⟩
      · simp only [if_neg hb104]
        by_cases hb108 : b = 108
        · subst hb108
          simp only [if_pos rfl, EscapeSequenceParser.reset]
          exact ⟨hm, rfl⟩
        · simp only [if_neg hb108]
          by_cases hd : isAsciiDigit b = true
          · simp only [hd, if_true]
            simpa using hpush
          · simp only [hd, if_false, EscapeSequenceParser.reset]
            exact ⟨hm, rfl⟩

theorem esc_feed_inv (s : List Nat) (c : List Nat) (p : EscapeSequenceParser)
    (h : EscInv c p) : EscInv (c ++ s) ((p.feed s).1) := by
  induction s generalizing c p with
  | nil => simpa using h
  | cons b rest ih =>
    have h1 := esc_feed_byte_inv p b c h
    have h2 := ih (c ++ [b]) (p.feed_byte b).1 h1
    simp only [EscapeSequenceParser.feed]
    simpa using h2

theorem esc_feed_byte_emit (p : EscapeSequenceParser) (b : Nat) (c : List Nat)
    (hinv : EscInv c p) (ev : SequenceEvent) (hev : (p.feed_byte b).2 = some ev) :
    (ev = .enterAltMode →
      ([27, 91, 63, 52, 55, 104] : List Nat).IsSuffix (c ++ [b]) ∨
      ([27, 91, 63, 49, 48, 52, 57, 104] : List Nat).IsSuffix (c ++ [b])) ∧
    (ev = .exitAltMode →
      ([27, 91, 63, 52, 55, 108] : List Nat).IsSuffix (c ++ [b]) ∨
      ([27, 91, 63, 49, 48, 52, 57, 108] : List Nat).IsSuffix (c ++ [b])) := by
  obtain ⟨buf, st, m⟩ := p
  obtain ⟨hm, hst⟩ := hinv
  simp only at hm
  cases st
  case normal =>
    simp only [EscapeSequenceParser.feed_byte] at hev
    split_ifs at hev <;> simp at hev
  case escape =>
    simp only [EscapeSequenceParser.feed_byte] at hev
    split_ifs at hev <;> simp at hev
  case csi =>
    simp only [EscapeSequenceParser.feed_byte] at hev
    split_ifs at hev <;> simp at hev
  case modeSequence =>
    obtain ⟨⟨ds, hbuf⟩, hlen, hsuf⟩ := hst
    simp only at hbuf hlen hsuf
    subst hbuf
    simp only [EscapeSequenceParser.feed_byte] at hev
    by_cases hover : m ≤ (27 :: 91 :: ds).length
    · rw [if_pos (by simpa using hover)] at hev
      simp at hev
    · rw [if_neg (by simpa using hover)] at hev
      have hroom : (27 :: 91 :: ds).length < m := by omega
      have hsw : (27 :: 91 :: ds : List Nat).IsSuffix c := hsuf hroom
      have hsufb : ((27 :: 91 :: ds) ++ [b] : List Nat).IsSuffix (c ++ [b]) := by
        obtain ⟨t, rfl⟩ := hsw
        exact ⟨t, by simp⟩
      by_cases hb104 : b = 104
      · subst hb104
        rw [if_pos rfl] at hev
        dsimp only at hev
        split_ifs at hev with halt
        · injection hev with hev
          subst hev
          simp only [EscapeSequenceParser.is_alt_mode_sequence] at halt
          split_ifs at halt with hlt
          rw [show utf8Bytes "?47h" = [63, 52, 55, 104] from rfl,
            show utf8Bytes "?47l" = [63, 52, 55, 108] from rfl,
            show utf8Bytes "?1049h" = [63, 49, 48, 52, 57, 104] from rfl,
            show utf8Bytes "?1049l" = [63, 49, 48, 52, 57, 108] from rfl] at halt
          simp only [List.drop_succ_cons, List.drop_zero, Bool.or_eq_true,
            decide_eq_true_eq] at halt
          rcases halt with ((h4 | h4) | h4) | h4
          · have h5 := List.append_inj'
              (show ds ++ [104] = [63, 52, 55] ++ [104] from h4) rfl
            obtain ⟨hds, -⟩ := h5
            subst hds
            exact ⟨fun _ => Or.inl hsufb, fun hq => nomatch hq⟩
          · have h5 := List.append_inj'
              (show ds ++ [104] = [63, 52, 55] ++ [108] from h4) rfl
            exact absurd h5.2 (by decide)
          · have h5 := List.append_inj'
              (show ds ++ [104] = [63, 49, 48, 52, 57] ++ [104] from h4) rfl
            obtain ⟨hds, -⟩ := h5
            subst hds
            exact ⟨fun _ => Or.inr hsufb, fun hq => nomatch hq⟩
          · have h5 := List.append_inj'
              (show ds ++ [104] = [63, 49, 48, 52, 57] ++ [108] from h4) rfl
            exact absurd h5.2 (by decide)
      · rw [if_neg hb104] at hev
        by_cases hb108 : b = 108
        · subst hb108
          rw [if_pos rfl] at hev
          dsimp only at hev
          split_ifs at hev with halt
          · injection hev with hev
            subst hev
            simp only [EscapeSequenceParser.is_alt_mode_sequence] at halt
            split_ifs at halt with hlt
            rw [show utf8Bytes "?47h" = [63, 52, 55, 104] from rfl,
              show utf8Bytes "?47l" = [63, 52, 55, 108] from rfl,
              show utf8Bytes "?1049h" = [63, 49, 48, 52, 57, 104] from rfl,
              show utf8Bytes "?1049l" = [63, 49, 48, 52, 57, 108] from rfl] at halt
            simp only [List.drop_succ_cons, List.drop_zero, Bool.or_eq_true,
              decide_eq_true_eq] at halt
            rcases halt with ((h4 | h4) | h4) | h4
            · have h5 := List.append_inj'
                (show ds ++ [108] = [63, 52, 55] ++ [104] from h4) rfl
              exact absurd h5.2 (by decide)
            · have h5 := List.append_inj'
                (show ds ++ [108] = [63, 52, 55] ++ [108] from h4) rfl
              obtain ⟨hds, -⟩ := h5
              subst hds
              exact ⟨fun hq => (nomatch hq), fun _ => Or.inl hsufb⟩
            · have h5 := List.append_inj'
                (show ds ++ [108] = [63, 49, 48, 52, 57] ++ [104] from h4) rfl
              exact absurd h5.2 (by decide)
            · have h5 := List.append_inj'
                (show ds ++ [108] = [63, 49, 48, 52, 57] ++ [108] from h4) rfl
              obtain ⟨hds, -⟩ := h5
              subst hds
              exact ⟨fun hq => (nomatch hq), fun _ => Or.inr hsufb⟩
        · rw [if_neg hb108] at hev
          split_ifs at hev <;> simp at hev

theorem esc_feed_normal_ignored (s : List Nat) (p : EscapeSequenceParser)
    (hst : p.state = .normal) (h : ∀ b ∈ s, b ≠ 27) : p.feed s = (p, []) := by
  induction s with
  | nil => rfl
  | cons b rest ih =>
    have hb : b ≠ 27 := h b (List.mem_cons_self _ _)
    simp only [EscapeSequenceParser.feed, EscapeSequenceParser.feed_byte, hst, hb, if_false]
    rw [ih (fun x hx => h x (List.mem_cons_of_mem _ hx))]
    rfl

theorem esc_feed_neutral_complete (p : EscapeSequenceParser)
    (hst : p.state = .normal) (hbuf : p.buffer = []) (hmax : 8 ≤ p.max_buffer_size) :
    p.feed [27, 91, 63, 52, 55, 104] = (p, [.enterAltMode]) ∧
    p.feed [27, 91, 63, 49, 48, 52, 57, 104] = (p, [.enterAltMode]) ∧
    p.feed [27, 91, 63, 52, 55, 108] = (p, [.exitAltMode]) ∧
    p.feed [27, 91, 63, 49, 48, 52, 57, 108] = (p, [.exitAltMode]) := by
  obtain ⟨buf, st, m⟩ := p
  simp only at hst hbuf hmax
  subst hst hbuf
  have h1 : (1 : Nat) < m := by omega
  have h2 : (2 : Nat) < m := by omega
  have h3 : (3 : Nat) < m := by omega
  have h4 : (4 : Nat) < m := by omega
  have h5 : (5 : Nat) < m := by omega
  have h6 : (6 : Nat) < m := by omega
  have h7 : (7 : Nat) < m := by omega
  have g3 : ¬ (m ≤ 3) := by omega
  have g4 : ¬ (m ≤ 4) := by omega
  have g5 : ¬ (m ≤ 5) := by omega
  have g6 : ¬ (m ≤ 6) := by omega
  have g7 : ¬ (m ≤ 7) := by omega
  refine ⟨?_, ?_, ?_, ?_⟩ <;>
    simp [EscapeSequenceParser.feed, EscapeSequenceParser.feed_byte,
      EscapeSequenceParser.is_alt_mode_sequence, EscapeSequenceParser.reset,
      isAsciiDigit, h1, h2, h3, h4, h5, h6, h7, g3, g4, g5, g6, g7,
      utf8Bytes, utf8EncodeChar]

theorem esc_feed_csi_intro (p : EscapeSequenceParser)
    (hst : p.state = .normal) (hbuf : p.buffer = []) (hmax : 8 ≤ p.max_buffer_size) :
    p.feed [27, 91, 63] =
      ({ p with state := .modeSequence, buffer := [27, 91, 63] }, []) := by
  obtain ⟨buf, st, m⟩ := p
  simp only at hst hbuf hmax
  subst hst hbuf
  have h1 : (1 : Nat) < m := by omega
  have h2 : (2 : Nat) < m := by omega
  simp [EscapeSequenceParser.feed, EscapeSequenceParser.feed_byte, h1, h2]

theorem esc_modeseq_digits_no_emit (ds : List Nat) (term : Nat)
    (hterm : term = 104 ∨ term = 108) (p : EscapeSequenceParser) (es : List Nat)
    (hst : p.state = .modeSequence) (hbuf : p.buffer = 27 :: 91 :: 63 :: es)
    (hlen : p.buffer.length ≤ p.max_buffer_size)
    (hds : ∀ b ∈ ds, isAsciiDigit b = true)
    (h47 : es ++ ds ≠ [52, 55]) (h1049 : es ++ ds ≠ [49, 48, 52, 57]) :
    (p.feed (ds ++ [term])).2 = [] := by
  induction ds generalizing p es with
  | nil =>
    obtain ⟨buf, st, m⟩ := p
    simp only at hst hbuf hlen
    subst hst hbuf
    simp only [List.append_nil] at h47 h1049
    have halt : EscapeSequenceParser.is_alt_mode_sequence
        ⟨27 :: 91 :: 63 :: (es ++ [term]), .modeSequence, m⟩ = false := by
      simp only [EscapeSequenceParser.is_alt_mode_sequence]
      split_ifs with hlt
      · rfl
      · have n1 : ¬ (63 :: (es ++ [term]) = [63, 52, 55, 104]) := by
          intro hc
          injection hc with h0 hc
          exact h47 (List.append_inj' (show es ++ [term] = [52, 55] ++ [104] from hc) rfl).1
        have n2 : ¬ (63 :: (es ++ [term]) = [63, 52, 55, 108]) := by
          intro hc
          injection hc with h0 hc
          exact h47 (List.append_inj' (show es ++ [term] = [52, 55] ++ [108] from hc) rfl).1
        have n3 : ¬ (63 :: (es ++ [term]) = [63, 49, 48, 52, 57, 104]) := by
          intro hc
          injection hc with h0 hc
          exact h1049
            (List.append_inj' (show es ++ [term] = [49, 48, 52, 57] ++ [104] from hc) rfl).1
        have n4 : ¬ (63 :: (es ++ [term]) = [63, 49, 48, 52, 57, 108]) := by
          intro hc
          injection hc with h0 hc
          exact h1049
            (List.append_inj' (show es ++ [term] = [49, 48, 52, 57] ++ [108] from hc) rfl).1
        simp only [List.drop_succ_cons, List.drop_zero,
          show utf8Bytes "?47h" = [63, 52, 55, 104] from rfl,
          show utf8Bytes "?47l" = [63, 52, 55, 108] from rfl,
          show utf8Bytes "?1049h" = [63, 49, 48, 52, 57, 104] from rfl,
          show utf8Bytes "?1049l" = [63, 49, 48, 52, 57, 108] from rfl]
        simp [n1, n2, n3, n4]
    have hfb : (EscapeSequenceParser.feed_byte
        ⟨27 :: 91 :: 63 :: es, .modeSequence, m⟩ term).2 = none := by
      simp only [EscapeSequenceParser.feed_byte]
      by_cases hover : m ≤ (27 :: 91 :: 63 :: es : List Nat).length
      · rw [if_pos (by simpa using hover)]
      · rw [if_neg (by simpa using hover)]
        rcases hterm with h | h <;> subst h
        · rw [if_pos rfl]
          simp [List.cons_append, halt]
        · rw [if_neg (by decide), if_pos rfl]
          simp [List.cons_append, halt]
    simp only [List.nil_append, EscapeSequenceParser.feed]
    simp [hfb]
  | cons d rest ih =>
    obtain ⟨buf, st, m⟩ := p
    simp only at hst hbuf hlen
    subst hst hbuf
    have hd : isAsciiDigit d = true := hds d (List.mem_cons_self _ _)
    have hd104 : d ≠ 104 := by simp [isAsciiDigit] at hd; omega
    have hd108 : d ≠ 108 := by simp [isAsciiDigit] at hd; omega
    by_cases hover : m ≤ (27 :: 91 :: 63 :: es).length
    · have hfb : EscapeSequenceParser.feed_byte ⟨27 :: 91 :: 63 :: es, .modeSequence, m⟩ d =
          (EscapeSequenceParser.reset ⟨27 :: 91 :: 63 :: es, .modeSequence, m⟩, none) := by
        simp only [EscapeSequenceParser.feed_byte]
        rw [if_pos (by simpa using hover)]
      have hok : ∀ x ∈ rest ++ [term], x ≠ 27 := by
        intro x hx
        rcases List.mem_append.mp hx with hx | hx
        · have := hds x (List.mem_cons_of_mem _ hx)
          simp [isAsciiDigit] at this
          omega
        · simp at hx
          subst hx
          rcases hterm with h | h <;> omega
      have hni := esc_feed_normal_ignored (rest ++ [term])
        (EscapeSequenceParser.reset ⟨27 :: 91 :: 63 :: es, .modeSequence, m⟩) rfl hok
      simp only [List.cons_append, EscapeSequenceParser.feed, hfb, List.append_eq]
      rw [hni]
      rfl
    · have hfb : EscapeSequenceParser.feed_byte ⟨27 :: 91 :: 63 :: es, .modeSequence, m⟩ d =
          (⟨(27 :: 91 :: 63 :: es) ++ [d], .modeSequence, m⟩, none) := by
        simp only [EscapeSequenceParser.feed_byte]
        rw [if_neg (by simpa using hover), if_neg hd104, if_neg hd108, if_pos hd]
      simp only [List.cons_append, EscapeSequenceParser.feed, hfb]
      have := ih ⟨(27 :: 91 :: 63 :: es) ++ [d], .modeSequence, m⟩ (es ++ [d]) rfl
        (by simp) (by simp at hover ⊢; omega)
        (fun x hx => hds x (List.mem_cons_of_mem _ hx))
        (by simpa using h47) (by simpa using h1049)
      simpa using this

/-- C7 counterexample: an EnterAlt sequence that has been completely
consumed need not produce an event. When the ESC of a new sequence
interrupts a pending `ESC [ ? 4 7` sequence, the parser discards the
interrupting ESC together with the aborted sequence, so the stream
`ESC [ ? 4 7 ESC [ ? 4 7 h` ends with the full sequence `ESC [ ? 4 7 h`
yet feeding it to a fresh parser emits nothing. -/
theorem alt_sequence_consumed_without_event :
    ((EscapeSequenceParser.new 256).feed (utf8Bytes "\x1b[?47\x1b[?47h")).2 = [] ∧
    (utf8Bytes "\x1b[?47h").IsSuffix (utf8Bytes "\x1b[?47\x1b[?47h") := by
  refine ⟨by decide, by decide⟩

/-- C7 amended: the alt-mode parser emits EnterAlt and ExitAlt exactly
for the four sequences when they are parsed from the parser's neutral
state. (i) Soundness: whenever feeding one more byte emits EnterAlt,
the stream consumed so far ends with `ESC [ ? 4 7 h` or
`ESC [ ? 1 0 4 9 h`, and likewise for ExitAlt with `l`. (ii) From any
point where the parser has returned to its neutral state, appending a
complete recognized sequence emits exactly its event. (iii) Any other
digit string between `ESC [ ?` and the terminator — such as 1048 —
emits nothing. (iv) On the split input `ESC [ ?`, `1049`, `h`, a
single EnterAlt appears only after the final byte. A sequence whose
ESC lands inside a pending `ESC [ ?` sequence is discarded with it. -/
theorem alt_mode_event_characterization (n : Nat) (s : List Nat) (b : Nat)
    (ev : SequenceEvent) (term : Nat) (ds : List Nat) (t : List Nat)
    (hev : ((EscapeSequenceParser.new n).feed (s ++ [b])).2 =
      ((EscapeSequenceParser.new n).feed s).2 ++ [ev])
    (hterm : term = 104 ∨ term = 108)
    (hds : ∀ d ∈ ds, isAsciiDigit d = true)
    (h47 : ds ≠ [52, 55]) (h1049 : ds ≠ [49, 48, 52, 57])
    (hneutral : ((EscapeSequenceParser.new n).feed t).1.state = .normal ∧
      ((EscapeSequenceParser.new n).feed t).1.buffer = []) :
    ((ev = .enterAltMode →
        ([27, 91, 63, 52, 55, 104] : List Nat).IsSuffix (s ++ [b]) ∨
        ([27, 91, 63, 49, 48, 52, 57, 104] : List Nat).IsSuffix (s ++ [b])) ∧
      (ev = .exitAltMode →
        ([27, 91, 63, 52, 55, 108] : List Nat).IsSuffix (s ++ [b]) ∨
        ([27, 91, 63, 49, 48, 52, 57, 108] : List Nat).IsSuffix (s ++ [b]))) ∧
    (((EscapeSequenceParser.new n).feed (t ++ [27, 91, 63, 52, 55, 104])).2 =
        ((EscapeSequenceParser.new n).feed t).2 ++ [.enterAltMode] ∧
      ((EscapeSequenceParser.new n).feed (t ++ [27, 91, 63, 49, 48, 52, 57, 104])).2 =
        ((EscapeSequenceParser.new n).feed t).2 ++ [.enterAltMode] ∧
      ((EscapeSequenceParser.new n).feed (t ++ [27, 91, 63, 52, 55, 108])).2 =
        ((EscapeSequenceParser.new n).feed t).2 ++ [.exitAltMode] ∧
      ((EscapeSequenceParser.new n).feed (t ++ [27, 91, 63, 49, 48, 52, 57, 108])).2 =
        ((EscapeSequenceParser.new n).feed t).2 ++ [.exitAltMode]) ∧
    ((EscapeSequenceParser.new n).feed (27 :: 91 :: 63 :: (ds ++ [term]))).2 = [] ∧
    (((EscapeSequenceParser.new 256).feed (utf8Bytes "\x1b[?")).2 = [] ∧
      ((((EscapeSequenceParser.new 256).feed (utf8Bytes "\x1b[?")).1).feed
        (utf8Bytes "1049")).2 = [] ∧
      (((((EscapeSequenceParser.new 256).feed (utf8Bytes "\x1b[?")).1).feed
        (utf8Bytes "1049")).1.feed (utf8Bytes "h")).2 = [.enterAltMode]) := by
  have hinv0 : EscInv [] (EscapeSequenceParser.new n) := by
    refine ⟨?_, ?_⟩
    · simp [EscapeSequenceParser.new]
    · rfl
  have hinv : EscInv s ((EscapeSequenceParser.new n).feed s).1 := by
    have := esc_feed_inv s [] (EscapeSequenceParser.new n) hinv0
    simpa using this
  have hmaxpres : ((EscapeSequenceParser.new n).feed t).1.max_buffer_size = max n 8 := by
    have := esc_feed_size_bound t (.new n)
      (by simp [EscapeSequenceParser.new]) (by simp [EscapeSequenceParser.new])
    simpa [EscapeSequenceParser.new] using this.1
  have hcomp := esc_feed_neutral_complete ((EscapeSequenceParser.new n).feed t).1
    hneutral.1 hneutral.2 (by rw [hmaxpres]; exact le_max_right _ _)
  refine ⟨?_, ⟨?_, ?_, ?_, ?_⟩, ?_, by decide, by decide, by decide⟩
  · rw [esc_feed_append] at hev
    have hsp : (((EscapeSequenceParser.new n).feed s).1.feed [b]).2 =
        ((((EscapeSequenceParser.new n).feed s).1.feed_byte b).2).toList := by
      simp [EscapeSequenceParser.feed]
    rw [hsp] at hev
    have hopt := List.append_cancel_left hev
    cases hob : (((EscapeSequenceParser.new n).feed s).1.feed_byte b).2 with
    | none => rw [hob] at hopt; simp at hopt
    | some ev2 =>
      rw [hob] at hopt
      simp only [Option.toList_some, List.cons.injEq, and_true] at hopt
      subst hopt
      exact esc_feed_byte_emit _ b s hinv ev2 hob
  · rw [esc_feed_append, hcomp.1]
  · rw [esc_feed_append, hcomp.2.1]
  · rw [esc_feed_append, hcomp.2.2.1]
  · rw [esc_feed_append, hcomp.2.2.2]
  · have hintro := esc_feed_csi_intro (EscapeSequenceParser.new n) rfl rfl
      (le_max_right _ _)
    have hdig := esc_modeseq_digits_no_emit ds term hterm
      ({ EscapeSequenceParser.new n with state := .modeSequence, buffer := [27, 91, 63] })
      [] rfl rfl (by simp [EscapeSequenceParser.new]) hds
      (by simpa using h47) (by simpa using h1049)
    have hsplit : (27 :: 91 :: 63 :: (ds ++ [term]) : List Nat) =
        [27, 91, 63] ++ (ds ++ [term]) := by simp
    rw [hsplit, esc_feed_append, hintro, hdig]
    rfl

/-- C7 amended witness: the soundness direction at the byte completing
`ESC [ ? 4 7 h`, completeness right after a neutral point, the 1048
sequence emitting nothing, and the split-input scenario. -/
theorem alt_mode_event_characterization_witness :
    ((SequenceEvent.enterAltMode = SequenceEvent.enterAltMode →
        ([27, 91, 63, 52, 55, 104] : List Nat).IsSuffix
          ([27, 91, 63, 52, 55] ++ [104]) ∨
        ([27, 91, 63, 49, 48, 52, 57, 104] : List Nat).IsSuffix
          ([27, 91, 63, 52, 55] ++ [104])) ∧
      (SequenceEvent.enterAltMode = SequenceEvent.exitAltMode →
        ([27, 91, 63, 52, 55, 108] : List Nat).IsSuffix
          ([27, 91, 63, 52, 55] ++ [104]) ∨
        ([27, 91, 63, 49, 48, 52, 57, 108] : List Nat).IsSuffix
          ([27, 91, 63, 52, 55] ++ [104]))) ∧
    (((EscapeSequenceParser.new 256).feed ([120] ++ [27, 91, 63, 52, 55, 104])).2 =
        ((EscapeSequenceParser.new 256).feed [120]).2 ++ [.enterAltMode] ∧
      ((EscapeSequenceParser.new 256).feed ([120] ++ [27, 91, 63, 49, 48, 52, 57, 104])).2 =
        ((EscapeSequenceParser.new 256).feed [120]).2 ++ [.enterAltMode] ∧
      ((EscapeSequenceParser.new 256).feed ([120] ++ [27, 91, 63, 52, 55, 108])).2 =
        ((EscapeSequenceParser.new 256).feed [120]).2 ++ [.exitAltMode] ∧
      ((EscapeSequenceParser.new 256).feed ([120] ++ [27, 91, 63, 49, 48, 52, 57, 108])).2 =
        ((EscapeSequenceParser.new 256).feed [120]).2 ++ [.exitAltMode]) ∧
    ((EscapeSequenceParser.new 256).feed
      (27 :: 91 :: 63 :: ([49, 48, 52, 56] ++ [104]))).2 = [] ∧
    (((EscapeSequenceParser.new 256).feed (utf8Bytes "\x1b[?")).2 = [] ∧
      ((((EscapeSequenceParser.new 256).feed (utf8Bytes "\x1b[?")).1).feed
        (utf8Bytes "1049")).2 = [] ∧
      (((((EscapeSequenceParser.new 256).feed (utf8Bytes "\x1b[?")).1).feed
        (utf8Bytes "1049")).1.feed (utf8Bytes "h")).2 = [.enterAltMode]) :=
  alt_mode_event_characterization 256 [27, 91, 63, 52, 55] 104 .enterAltMode 104
    [49, 48, 52, 56] [120] (by decide) (Or.inl rfl) (by decide) (by decide) (by decide)
    ⟨by decide, by decide⟩

end SimpleSsh
